import Mathlib

/-!
Verification of the volunteer-signup store (`db.py`) and the eligibility
report computation (`tamilschool/ui.py`, `tamilschool/services.py`).

The SQLite database is embedded as an explicit state (`DB`): one list of rows
per table plus one fresh-id counter per table (AUTOINCREMENT).  Each Python
function of `db.py` becomes a pure Lean function on `DB`.  The TEXT column
`assigned_dates` holds either NULL (`Option.none`) or a payload that is the
JSON serialization of a mapping from service-id strings to date lists
(`Payload.json`) or unparsable text (`Payload.corrupt`, which `json.loads`
rejects); `json.dumps`/`json.loads` of the Python standard library are
modelled as the constructor/destructor of `Payload.json`.
Calendar dates are embedded as day numbers (days since 0000-03-01 of the
proleptic Gregorian calendar, Hinnant's civil-from-days algorithm), so that
`datetime.fromisoformat`, `date.weekday()` and `timedelta` arithmetic become
Nat arithmetic.  `datetime.now` timestamps are passed in as an explicit
`now` argument.
-/

/-- Write-side date mapping stored in the `assigned_dates` column:
service-id (as decimal string) to list of ISO date strings. -/
abbrev DateMap := List (String × List String)

/-- Read-side mapping: the legacy `assigned_date` fallback introduces the
Python `None` key, hence keys are `Option String`. -/
abbrev ReadMap := List (Option String × List String)

/-- Content of a non-NULL `assigned_dates` TEXT column: the JSON
serialization of a mapping, or text on which `json.loads` fails. -/
inductive Payload where
  | json : DateMap → Payload
  | corrupt : Payload
deriving DecidableEq, Repr

/-- Models `json.loads(col) if col else None` wrapped in `try/except` returning
`None` on failure (`db.py` read paths). -/
def decodePayload : Option Payload → Option DateMap
  | none => none
  | some (.json m) => some m
  | some .corrupt => none

/-- Python truthiness of an optional dict: `None` and `{}` are falsy. -/
def truthyMap : Option DateMap → Bool
  | some (_ :: _) => true
  | _ => false

/-- Python truthiness of an optional string: `None` and `""` are falsy. -/
def truthyStr : Option String → Bool
  | some s => !(s == "")
  | none => false

/-- Models `json.dumps(m) if m else None` (write paths of `db.py`). -/
def encodeOptMap : Option DateMap → Option Payload
  | some (p :: ps) => some (.json (p :: ps))
  | _ => none

/-- Models `json.dumps(m) if m else None` for a non-optional dict. -/
def encodeMap (m : DateMap) : Option Payload :=
  if m.isEmpty then none else some (.json m)

/-- Key injection applied when a decoded write-side mapping is returned to
a reader (every stored key is a string, read as `some key`). -/
def toReadMap (m : DateMap) : ReadMap :=
  m.map (fun p => (some p.1, p.2))

/-- Shared read logic of `list_volunteers` / `get_volunteer_by_email` /
`report_volunteers`: decode the JSON column; when the decoded mapping is
falsy and the legacy scalar `assigned_date` is truthy, substitute
`{None: [assigned_date]}`. -/
def decodeAssigned (stored : Option Payload) (legacy : Option String) : Option ReadMap :=
  let ad := decodePayload stored
  if !truthyMap ad && truthyStr legacy then
    some [(none, [legacy.getD ""])]
  else
    ad.map toReadMap

/-- Row of the `volunteers` table. -/
structure VolunteerRow where
  id : Nat
  name : String
  email : String
  phone : Option String
  committed_weekly : Bool
  created_at : String
  service_id : Option Nat
  assigned_date : Option String
  assigned_dates : Option Payload
deriving DecidableEq, Repr

/-- Row of the `services` table. -/
structure ServiceRow where
  id : Nat
  name : String
  max_capacity : Nat
  start_date : Option String
  end_date : Option String
  created_at : String
deriving DecidableEq, Repr

/-- Row of the `service_dates` table. -/
structure ServiceDateRow where
  id : Nat
  service_id : Nat
  date : String
deriving DecidableEq, Repr

/-- Row of the `subservices` table. -/
structure SubserviceRow where
  id : Nat
  service_id : Nat
  name : String
  max_capacity : Nat
  created_at : String
deriving DecidableEq, Repr

/-- Row of the `subservice_assignments` table (`completed INTEGER DEFAULT 0`
read back through `bool(...)`). -/
structure AssignmentRow where
  id : Nat
  subservice_id : Nat
  volunteer_id : Nat
  date : String
  completed : Bool
  created_at : String
deriving DecidableEq, Repr

/-- The SQLite database state: one row list per table and one
AUTOINCREMENT counter per table. -/
structure DB where
  volunteers : List VolunteerRow
  services : List ServiceRow
  service_dates : List ServiceDateRow
  subservices : List SubserviceRow
  assignments : List AssignmentRow
  nextVolunteerId : Nat
  nextServiceId : Nat
  nextServiceDateId : Nat
  nextSubserviceId : Nat
  nextAssignId : Nat
deriving DecidableEq, Repr

/-- Python dict read `d.get(k)` on an insertion-ordered association list. -/
def dFind {κ α : Type} [DecidableEq κ] (d : List (κ × α)) (k : κ) : Option α :=
  (d.find? (fun p => p.1 = k)).map (fun p => p.2)

/-- Python dict write `d[k] = v`: replace in place when the key is present,
append otherwise (insertion order preserved). -/
def dictPut {κ α : Type} [DecidableEq κ] (d : List (κ × α)) (k : κ) (v : α) : List (κ × α) :=
  if (d.find? (fun p => p.1 = k)).isSome then
    d.map (fun p => if p.1 = k then (k, v) else p)
  else d ++ [(k, v)]

/-- Python dict removal `d.pop(k, None)`. -/
def dictPop {κ α : Type} [DecidableEq κ] (d : List (κ × α)) (k : κ) : List (κ × α) :=
  d.filter (fun p => ¬ p.1 = k)

/-- Duplicate-email failure surfaced by `add_volunteer`
(`sqlite3.IntegrityError` on the UNIQUE email constraint, re-raised). -/
inductive RegistryError where
  | duplicateEmail
deriving DecidableEq, Repr

/-- Embeds `db.add_volunteer`: INSERT a fresh volunteer row; the UNIQUE constraint
on email raises `duplicateEmail` and leaves the table unchanged.  The
legacy `assigned_date` column is explicitly inserted as NULL. -/
def add_volunteer (db : DB) (now name email : String) (phone : Option String)
    (assigned_dates : Option DateMap) (committed_weekly : Bool) :
    DB × Except RegistryError Nat :=
  if db.volunteers.any (fun v => v.email = email) then
    (db, .error .duplicateEmail)
  else
    let row : VolunteerRow :=
      { id := db.nextVolunteerId, name := name, email := email, phone := phone,
        committed_weekly := committed_weekly, created_at := now,
        service_id := none, assigned_date := none,
        assigned_dates := encodeOptMap assigned_dates }
    ({ db with volunteers := db.volunteers ++ [row],
               nextVolunteerId := db.nextVolunteerId + 1 },
     .ok db.nextVolunteerId)

/-- Result shape of `get_volunteer_by_email`. -/
structure VolunteerView where
  id : Nat
  name : String
  email : String
  phone : Option String
  committed_weekly : Bool
  assigned_dates : Option ReadMap
  created_at : String
deriving DecidableEq, Repr

/-- Embeds `db.get_volunteer_by_email`: first row whose email matches, with the
date mapping decoded (legacy fallback applied). -/
def get_volunteer_by_email (db : DB) (email : String) : Option VolunteerView :=
  (db.volunteers.find? (fun v => v.email = email)).map (fun r =>
    ⟨r.id, r.name, r.email, r.phone, r.committed_weekly,
      decodeAssigned r.assigned_dates r.assigned_date, r.created_at⟩)

/-- Result shape of `list_volunteers` (LEFT JOIN with `services`). -/
structure VolunteerListItem where
  id : Nat
  name : String
  email : String
  phone : Option String
  service_id : Option Nat
  service_name : Option String
  committed_weekly : Bool
  assigned_dates : Option ReadMap
  created_at : String
deriving DecidableEq, Repr

/-- Embeds `db.list_volunteers`: all volunteer rows, ORDER BY created_at DESC,
each with the decoded mapping (legacy fallback applied). -/
def list_volunteers (db : DB) : List VolunteerListItem :=
  (List.insertionSort (fun a b : VolunteerRow => b.created_at ≤ a.created_at)
      db.volunteers).map (fun r =>
    ⟨r.id, r.name, r.email, r.phone, r.service_id,
      r.service_id.bind (fun sid =>
        (db.services.find? (fun s => s.id = sid)).map (fun s => s.name)),
      r.committed_weekly,
      decodeAssigned r.assigned_dates r.assigned_date, r.created_at⟩)

/-- Embeds `db.assign_service`: load the stored mapping of the row with this email
(legacy scalar ignored; unparsable payload read as `{}`), set or pop the
`str(service_id)` key depending on the truthiness of the date list, write
back (`json.dumps(m) if m else None`) together with `committed_weekly`, and
report whether any row was updated (`cur.rowcount > 0`). -/
def assign_service (db : DB) (email : String) (service_id : Nat)
    (assigned_dates_list : Option (List String)) (committed_weekly : Bool) :
    DB × Bool :=
  let existing : DateMap :=
    match db.volunteers.find? (fun v => v.email = email) with
    | some r => (decodePayload r.assigned_dates).getD []
    | none => []
  let newMap : DateMap :=
    match assigned_dates_list with
    | some (d :: ds) => dictPut existing (toString service_id) (d :: ds)
    | _ => dictPop existing (toString service_id)
  let payload := encodeMap newMap
  let volunteers := db.volunteers.map (fun v =>
    if v.email = email then
      { v with assigned_dates := payload, committed_weekly := committed_weekly }
    else v)
  let changed := db.volunteers.countP (fun v => v.email = email)
  ({ db with volunteers := volunteers }, decide (0 < changed))

/-- Embeds `db.update_volunteer`: full overwrite of the mutable fields of the row
with this id; the legacy `assigned_date` column is not in the UPDATE list. -/
def update_volunteer (db : DB) (volunteer_id : Nat) (name email : String)
    (phone : Option String) (assigned_dates : Option DateMap)
    (committed_weekly : Bool) : DB × Bool :=
  let payload := encodeOptMap assigned_dates
  let volunteers := db.volunteers.map (fun v =>
    if v.id = volunteer_id then
      { v with name := name, email := email, phone := phone,
               assigned_dates := payload, committed_weekly := committed_weekly }
    else v)
  let changed := db.volunteers.countP (fun v => v.id = volunteer_id)
  ({ db with volunteers := volunteers }, decide (0 < changed))

/-- Embeds `db.delete_volunteer`: DELETE the volunteer's sub-service assignments,
then the volunteer row; the returned flag is the rowcount of the second
DELETE. -/
def delete_volunteer (db : DB) (volunteer_id : Nat) : DB × Bool :=
  let assignments := db.assignments.filter (fun a => ¬ a.volunteer_id = volunteer_id)
  let volunteers := db.volunteers.filter (fun v => ¬ v.id = volunteer_id)
  let changed := db.volunteers.countP (fun v => v.id = volunteer_id)
  ({ db with assignments := assignments, volunteers := volunteers },
   decide (0 < changed))

/-- Embeds `db.delete_service`: DELETE the service's dates, then the assignments of
each of its subservices, then its subservices, then the service row; the
returned flag is the rowcount of the final DELETE. -/
def delete_service (db : DB) (service_id : Nat) : DB × Bool :=
  let service_dates := db.service_dates.filter (fun r => ¬ r.service_id = service_id)
  let subs := (db.subservices.filter (fun s => s.service_id = service_id)).map (fun s => s.id)
  let assignments := db.assignments.filter (fun a => ¬ a.subservice_id ∈ subs)
  let subservices := db.subservices.filter (fun s => ¬ s.service_id = service_id)
  let services := db.services.filter (fun s => ¬ s.id = service_id)
  let changed := db.services.countP (fun s => s.id = service_id)
  ({ db with service_dates := service_dates, assignments := assignments,
             subservices := subservices, services := services },
   decide (0 < changed))

/-! ### Calendar dates

Days are counted from 0000-03-01 of the proleptic Gregorian calendar
(Hinnant's `days_from_civil` without the 719468 epoch shift), so that
1970-01-01 is day 719468 (a Thursday) and `date.weekday()` (Monday = 0)
is `(day + 2) % 7`; Saturday is weekday 5. -/

/-- Python `date.weekday()` (Monday = 0, Saturday = 5) on a day number. -/
def pyWeekday (day : Nat) : Nat := (day + 2) % 7

/-- Gregorian leap-year test. -/
def isLeap (y : Nat) : Bool := y % 4 = 0 && (y % 100 ≠ 0 || y % 400 = 0)

/-- Length of a month (`datetime` validity check). -/
def daysInMonth (y m : Nat) : Nat :=
  if m = 2 then (if isLeap y then 29 else 28)
  else if m = 4 ∨ m = 6 ∨ m = 9 ∨ m = 11 then 30
  else 31

/-- Civil date to day number (Hinnant's `days_from_civil`, epoch 0000-03-01). -/
def toRataDie (y m d : Nat) : Nat :=
  let yAdj := if m ≤ 2 then y - 1 else y
  let era := yAdj / 400
  let yoe := yAdj - era * 400
  let mp := if 2 < m then m - 3 else m + 9
  let doy := (153 * mp + 2) / 5 + (d - 1)
  let doe := yoe * 365 + yoe / 4 - yoe / 100 + doy
  era * 146097 + doe

/-- Day number back to civil date (Hinnant's `civil_from_days`). -/
def fromRataDie (z : Nat) : Nat × Nat × Nat :=
  let era := z / 146097
  let doe := z % 146097
  let yoe := (doe - doe / 1460 + doe / 36524 - doe / 146096) / 365
  let y := yoe + era * 400
  let doy := doe - (365 * yoe + yoe / 4 - yoe / 100)
  let mp := (5 * doy + 2) / 153
  let d := doy - (153 * mp + 2) / 5 + 1
  let m := if mp < 10 then mp + 3 else mp - 9
  (if m ≤ 2 then y + 1 else y, m, d)

/-- Decimal digit value of a character, when it is one. -/
def digitVal (c : Char) : Option Nat :=
  if c.isDigit then some (c.toNat - 48) else none

/-- Decimal value of a two-character numeral. -/
def twoDigitVal (a b : Char) : Option Nat :=
  match digitVal a, digitVal b with
  | some x, some y => some (x * 10 + y)
  | _, _ => none

/-- Checks a two-digit time component against its exclusive bound
(`_parse_hh_mm_ss_ff` plus the range checks of the `time()` constructor). -/
def isTimeComp (a b : Char) (bound : Nat) : Bool :=
  match twoDigitVal a b with
  | some v => v < bound
  | none => false

/-- Models CPython's `_parse_hh_mm_ss_ff` followed by the `time()`
constructor: `HH`, `HH:MM`, `HH:MM:SS`, or `HH:MM:SS.` with a fraction of
exactly 3 or 6 digits. -/
def validTimeCore (cs : List Char) : Bool :=
  match cs with
  | [h1, h2] => isTimeComp h1 h2 24
  | [h1, h2, ':', m1, m2] => isTimeComp h1 h2 24 && isTimeComp m1 m2 60
  | [h1, h2, ':', m1, m2, ':', s1, s2] =>
      isTimeComp h1 h2 24 && isTimeComp m1 m2 60 && isTimeComp s1 s2 60
  | h1 :: h2 :: ':' :: m1 :: m2 :: ':' :: s1 :: s2 :: '.' :: frac =>
      isTimeComp h1 h2 24 && isTimeComp m1 m2 60 && isTimeComp s1 s2 60 &&
        (frac.length == 3 || frac.length == 6) && frac.all Char.isDigit
  | _ => false

/-- Models the timezone tail (`±` already stripped): exactly `HH:MM`,
`HH:MM:SS` or `HH:MM:SS.FFFFFF` (the length-5/8/15 check), with the
components unbounded individually but the total offset strictly below 24
hours (the `timezone()` constructor's check). -/
def validTzTail (cs : List Char) : Bool :=
  match cs with
  | [h1, h2, ':', m1, m2] =>
      (match twoDigitVal h1 h2, twoDigitVal m1 m2 with
       | some h, some m => h * 3600 + m * 60 < 86400
       | _, _ => false)
  | [h1, h2, ':', m1, m2, ':', s1, s2] =>
      (match twoDigitVal h1 h2, twoDigitVal m1 m2, twoDigitVal s1 s2 with
       | some h, some m, some s => h * 3600 + m * 60 + s < 86400
       | _, _, _ => false)
  | h1 :: h2 :: ':' :: m1 :: m2 :: ':' :: s1 :: s2 :: '.' :: frac =>
      (frac.length == 6) && frac.all Char.isDigit &&
      (match twoDigitVal h1 h2, twoDigitVal m1 m2, twoDigitVal s1 s2 with
       | some h, some m, some s => h * 3600 + m * 60 + s < 86400
       | _, _, _ => false)
  | _ => false

/-- Splits a character list at the first occurrence of `c`, dropping it
(`str.find` plus slicing). -/
def splitAtFirst (c : Char) : List Char → List Char × List Char
  | [] => ([], [])
  | x :: xs =>
    if x = c then ([], xs)
    else
      let r := splitAtFirst c xs
      (x :: r.1, r.2)

/-- Models `_parse_isoformat_time`: the string is split at the first `-`
(else the first `+`) into a time part and a timezone part, each checked
against its grammar. -/
def validIsoTimeStr (cs : List Char) : Bool :=
  if cs.contains '-' then
    let r := splitAtFirst '-' cs
    validTimeCore r.1 && validTzTail r.2
  else if cs.contains '+' then
    let r := splitAtFirst '+' cs
    validTimeCore r.1 && validTzTail r.2
  else validTimeCore cs

/-- Models `datetime.fromisoformat` (the grammar documented for CPython
3.7-3.10, all of which 3.11 still accepts): a `YYYY-MM-DD` date, optionally
followed by one arbitrary separator character and a valid time with
optional timezone; the result is the day number of `.date()`.  `none`
models the `ValueError` swallowed by `create_service`.  Numerals are
modelled as plain digits (the whitespace and sign forms accepted by
Python's `int()` are out of scope), and the extra date shapes accepted only
from 3.11 on (e.g. `YYYYMMDD`, week dates) are not modelled. -/
def parseIsoDate (s : String) : Option Nat :=
  match s.toList with
  | y1 :: y2 :: y3 :: y4 :: '-' :: m1 :: m2 :: '-' :: d1 :: d2 :: rest => do
    let a ← digitVal y1
    let b ← digitVal y2
    let c ← digitVal y3
    let d ← digitVal y4
    let e ← digitVal m1
    let f ← digitVal m2
    let g ← digitVal d1
    let h ← digitVal d2
    let y := ((a * 10 + b) * 10 + c) * 10 + d
    let m := e * 10 + f
    let dd := g * 10 + h
    if 1 ≤ y ∧ 1 ≤ m ∧ m ≤ 12 ∧ 1 ≤ dd ∧ dd ≤ daysInMonth y m then
      match rest with
      | [] => some (toRataDie y m dd)
      | _ :: tail =>
        if validIsoTimeStr tail then some (toRataDie y m dd) else none
    else none
  | _ => none

/-- Left-pad a decimal rendering with zeroes to the given width. -/
def padNum (width n : Nat) : String :=
  let s := toString n
  String.mk (List.replicate (width - s.length) '0') ++ s

/-- Models `date.isoformat()` on a day number. -/
def fmtRata (z : Nat) : String :=
  let c := fromRataDie z
  padNum 4 c.1 ++ "-" ++ padNum 2 c.2.1 ++ "-" ++ padNum 2 c.2.2

/-- The first `while` loop of `create_service`: advance day by day while the
day is not a Saturday and not past the end date.  `fuel` bounds the
iteration count (the loop runs at most `e + 1 - c` times). -/
def advLoop (e : Nat) : Nat → Nat → Nat
  | 0, c => c
  | fuel + 1, c => if pyWeekday c ≠ 5 ∧ c ≤ e then advLoop e fuel (c + 1) else c

/-- The advance-to-Saturday loop of `create_service` with its exact fuel bound. -/
def advanceToSat (e c : Nat) : Nat := advLoop e (e + 1 - c) c

/-- The second `while` loop of `create_service` as the list of emitted day
numbers: every 7th day from `c` while at or before `e`. -/
def emitLoop (e : Nat) : Nat → Nat → List Nat
  | 0, _ => []
  | fuel + 1, c => if c ≤ e then c :: emitLoop e fuel (c + 7) else []

/-- Day numbers of the generated Saturday dates of `create_service`. -/
def generateSatDates (s e : Nat) : List Nat :=
  emitLoop e (e + 1 - advanceToSat e s) (advanceToSat e s)

/-- The second `while` loop of `create_service` performing the
`service_dates` INSERTs. -/
def insertDatesLoop (sid e : Nat) : Nat → Nat → DB → DB
  | 0, _, db => db
  | fuel + 1, c, db =>
    if c ≤ e then
      insertDatesLoop sid e fuel (c + 7)
        { db with
          service_dates := db.service_dates ++ [⟨db.nextServiceDateId, sid, fmtRata c⟩],
          nextServiceDateId := db.nextServiceDateId + 1 }
    else db

/-- Embeds the success path of `db.create_service` (the behaviour once the
INSERT of the service row has not raised; the UNIQUE-name error path is
`create_service_checked` below): INSERT the service row; when both range
endpoints are present and parse as dates, advance to the first Saturday and
INSERT one `service_dates` row per Saturday up to the end date; parse
failures are swallowed (`except Exception: pass`) leaving the service
without dates. -/
def create_service (db : DB) (now name : String) (max_capacity : Nat)
    (start_date end_date : Option String) : DB × Nat :=
  let sid := db.nextServiceId
  let db1 : DB :=
    { db with
      services := db.services ++ [⟨sid, name, max_capacity, start_date, end_date, now⟩],
      nextServiceId := sid + 1 }
  let db2 :=
    match start_date, end_date with
    | some sd, some ed =>
      match parseIsoDate sd, parseIsoDate ed with
      | some s, some e =>
        let c := advanceToSat e s
        insertDatesLoop sid e (e + 1 - c) c db1
      | _, _ => db1
    | _, _ => db1
  (db2, sid)

/-- The INSERT loop of `assign_subservice` (`completed` takes its column
DEFAULT 0, i.e. `false`), also counting the insertions. -/
def assignInsertLoop (sub : Nat) (dateIso now : String) :
    List Nat → DB → Nat → DB × Nat
  | [], db, inserted => (db, inserted)
  | vid :: rest, db, inserted =>
    assignInsertLoop sub dateIso now rest
      { db with
        assignments := db.assignments ++ [⟨db.nextAssignId, sub, vid, dateIso, false, now⟩],
        nextAssignId := db.nextAssignId + 1 }
      (inserted + 1)

/-- Embeds `db.assign_subservice`: DELETE every assignment row of this
(subservice, date) pair, then INSERT one row per volunteer id in order. -/
def assign_subservice (db : DB) (now : String) (subservice_id : Nat)
    (date_iso : String) (volunteer_ids : List Nat) : DB × Nat :=
  let cleared : DB :=
    { db with
      assignments := db.assignments.filter (fun a =>
        ¬ (a.subservice_id = subservice_id ∧ a.date = date_iso)) }
  assignInsertLoop subservice_id date_iso now volunteer_ids cleared 0

/-- The rows inserted by `assign_subservice` for ids `vids`, starting at
AUTOINCREMENT value `n` (statement-side description of the loop). -/
def newAssignRows (sub : Nat) (dateIso now : String) : Nat → List Nat → List AssignmentRow
  | _, [] => []
  | n, vid :: rest => ⟨n, sub, vid, dateIso, false, now⟩ :: newAssignRows sub dateIso now (n + 1) rest

/-! ### Eligibility report (`ui.py`, "Generate Eligibility Report") -/

/-- The three per-volunteer dictionaries accumulated by the eligibility
report loop of `ui.py`. -/
structure EligAcc where
  vol_subservice_set : List (Nat × List Nat)
  vol_service_dates : List (Nat × List String)
  vol_completed_count : List (Nat × Nat)
deriving DecidableEq, Repr

/-- Python `set.add` on a set represented as an insertion-ordered
duplicate-free list. -/
def setAdd {α : Type} [DecidableEq α] (s : List α) (x : α) : List α :=
  if x ∈ s then s else s ++ [x]

/-- One iteration of the eligibility loop: record the sub-service id,
the (truthy) assignment date, and the completion flag of one row. -/
def eligStep (acc : EligAcc) (a : AssignmentRow) : EligAcc :=
  let vid := a.volunteer_id
  let ss := dictPut acc.vol_subservice_set vid
    (setAdd ((dFind acc.vol_subservice_set vid).getD []) a.subservice_id)
  let ds0 := if (dFind acc.vol_service_dates vid).isSome then acc.vol_service_dates
             else acc.vol_service_dates ++ [(vid, [])]
  let ds := if a.date ≠ "" then dictPut ds0 vid (setAdd ((dFind ds0 vid).getD []) a.date)
            else ds0
  let cc := if a.completed then
              dictPut acc.vol_completed_count vid ((dFind acc.vol_completed_count vid).getD 0 + 1)
            else acc.vol_completed_count
  ⟨ss, ds, cc⟩

/-- The eligibility loop over all assignment rows. -/
def eligFold (assigns : List AssignmentRow) : EligAcc :=
  assigns.foldl eligStep ⟨[], [], []⟩

/-- The `no_of_subservices` cell of the report row for one volunteer. -/
def eligSubCount (assigns : List AssignmentRow) (vid : Nat) : Nat :=
  ((dFind (eligFold assigns).vol_subservice_set vid).getD []).length

/-- The `service_dates` cell of the report row for one volunteer, i.e. `sorted(list(s))`. -/
def eligDates (assigns : List AssignmentRow) (vid : Nat) : List String :=
  List.insertionSort (fun a b : String => a ≤ b)
    ((dFind (eligFold assigns).vol_service_dates vid).getD [])

/-- The `no_of_completed_services` cell of the report row for one volunteer. -/
def eligCompleted (assigns : List AssignmentRow) (vid : Nat) : Nat :=
  ((dFind (eligFold assigns).vol_completed_count vid).getD 0)

/-- The `eligibility` cell of the report row for one volunteer. -/
def eligString (assigns : List AssignmentRow) (vid : Nat) : String :=
  if 3 ≤ eligSubCount assigns vid then "Eligible for Vol. Fees return" else ""

/-! ### Spec-side definitions -/

/-- Modelled from the spec: the first Saturday on or after day `s`. -/
def firstSat (s : Nat) : Nat := s + (12 - (s + 2) % 7) % 7

/-- Modelled from the spec (§3 ServiceDate): the first Saturday on or after
the start date when it is at or before the end date, plus every 7th day
after it up to the end date inclusive; empty when no such Saturday exists. -/
def specSatDates (s e : Nat) : List Nat :=
  if firstSat s ≤ e then
    (List.range ((e - firstSat s) / 7 + 1)).map (fun k => firstSat s + 7 * k)
  else []

/-- The rows inserted by the date-generation loop of `create_service` for
the emitted day numbers, starting at AUTOINCREMENT value `startId`
(statement-side description of `insertDatesLoop`). -/
def newDateRows (sid : Nat) : Nat → List Nat → List ServiceDateRow
  | _, [] => []
  | startId, c :: rest => ⟨startId, sid, fmtRata c⟩ :: newDateRows sid (startId + 1) rest

/-- The empty database produced by `init_db`. -/
def emptyDB : DB := ⟨[], [], [], [], [], 1, 1, 1, 1, 1⟩

/-- Sample volunteer row with a serialized date mapping. -/
def volAda : VolunteerRow :=
  ⟨1, "Ada", "ada@x.org", none, false, "t1", none, none,
    some (.json [("1", ["2024-06-01", "2024-06-08"])])⟩

/-- Sample legacy volunteer row: scalar `assigned_date` only, mapping NULL. -/
def volLeg : VolunteerRow :=
  ⟨2, "Leg", "leg@x.org", some "555", true, "t0", none, some "2024-06-01", none⟩

/-- Sample database with one mapped and one legacy volunteer. -/
def dbTwo : DB := ⟨[volAda, volLeg], [], [], [], [], 3, 1, 1, 1, 1⟩

/-- Sample assignment rows for report checks. -/
def assignsSample : List AssignmentRow :=
  [⟨1, 10, 4, "2024-06-08", true, "t"⟩,
   ⟨2, 11, 4, "2024-06-01", false, "t"⟩,
   ⟨3, 12, 4, "2024-06-08", true, "t"⟩,
   ⟨4, 10, 7, "2024-06-01", false, "t"⟩,
   ⟨5, 10, 7, "2024-06-08", false, "t"⟩]

example : decodeAssigned none (some "2024-06-01") = some [(none, ["2024-06-01"])] := by decide
example : decodeAssigned (some (.json [("1", ["a"])])) (some "x") = some [(some "1", ["a"])] := by decide
example : parseIsoDate "2024-06-01" = some 739343 := by decide
example : parseIsoDate "2024-06-01T09:00" = some 739343 := by decide
example : parseIsoDate "2024-06-01 09:00:05.123456" = some 739343 := by decide
example : parseIsoDate "2024-06-01T09:00:00+05:30" = some 739343 := by decide
example : parseIsoDate "2024-06-01T24:00" = none := by decide
example : parseIsoDate "2024-13-01" = none := by decide
example : parseIsoDate "junk" = none := by decide
example : pyWeekday 739343 = 5 := by decide
example : fmtRata 739343 = "2024-06-01" := by decide
example : generateSatDates 739343 739371 = [739343, 739350, 739357, 739364, 739371] := by decide
example : (generateSatDates 739343 739371).map fmtRata =
    ["2024-06-01", "2024-06-08", "2024-06-15", "2024-06-22", "2024-06-29"] := by decide
example : specSatDates 739343 739371 = [739343, 739350, 739357, 739364, 739371] := by decide

/-! ### Helper lemmas -/

theorem firstSat_weekday (s : Nat) : pyWeekday (firstSat s) = 5 := by
  unfold pyWeekday firstSat
  omega

theorem firstSat_ge (s : Nat) : s ≤ firstSat s := by
  unfold firstSat
  omega

theorem firstSat_eq_of_sat (s : Nat) (h : pyWeekday s = 5) : firstSat s = s := by
  unfold pyWeekday at h
  unfold firstSat
  omega

theorem firstSat_succ (s : Nat) (h : pyWeekday s ≠ 5) : firstSat (s + 1) = firstSat s := by
  unfold pyWeekday at h
  unfold firstSat
  omega

theorem advLoop_eq_firstSat (e : Nat) :
    ∀ fuel c, firstSat c - c ≤ fuel → firstSat c ≤ e → advLoop e fuel c = firstSat c := by
  intro fuel
  induction fuel with
  | zero =>
    intro c h1 h2
    have hg := firstSat_ge c
    simp only [advLoop]
    omega
  | succ fuel ih =>
    intro c h1 h2
    simp only [advLoop]
    by_cases hw : pyWeekday c = 5
    · rw [if_neg (by simp [hw])]
      exact (firstSat_eq_of_sat c hw).symm
    · have hlt : c < firstSat c := by
        have hg := firstSat_ge c
        rcases Nat.lt_or_ge c (firstSat c) with h | h
        · exact h
        · have heq : firstSat c = c := by omega
          exact absurd (heq ▸ firstSat_weekday c) hw
      have hce : c ≤ e := by omega
      rw [if_pos ⟨hw, hce⟩]
      have hs := firstSat_succ c hw
      have h1b : firstSat (c + 1) - (c + 1) ≤ fuel := by rw [hs]; omega
      have h2b : firstSat (c + 1) ≤ e := by rw [hs]; omega
      rw [ih (c + 1) h1b h2b, hs]

theorem advLoop_gt (e : Nat) :
    ∀ fuel c, e + 1 - c ≤ fuel → e < firstSat c → e < advLoop e fuel c := by
  intro fuel
  induction fuel with
  | zero =>
    intro c h1 h2
    simp only [advLoop]
    omega
  | succ fuel ih =>
    intro c h1 h2
    simp only [advLoop]
    by_cases hce : c ≤ e
    · have hw : pyWeekday c ≠ 5 := by
        intro hw
        have := firstSat_eq_of_sat c hw
        omega
      rw [if_pos ⟨hw, hce⟩]
      exact ih (c + 1) (by omega) (by rw [firstSat_succ c hw]; exact h2)
    · rw [if_neg (fun hc => hce hc.2)]
      omega

theorem advanceToSat_eq (s e : Nat) (h : firstSat s ≤ e) :
    advanceToSat e s = firstSat s := by
  unfold advanceToSat
  exact advLoop_eq_firstSat e (e + 1 - s) s (by have := firstSat_ge s; omega) h

theorem advanceToSat_gt (s e : Nat) (h : e < firstSat s) : e < advanceToSat e s :=
  advLoop_gt e (e + 1 - s) s (by omega) h

theorem rangeMap_cons (c n : Nat) :
    (List.range (n + 1)).map (fun k => c + 7 * k) =
      c :: (List.range n).map (fun k => (c + 7) + 7 * k) := by
  rw [List.range_succ_eq_map, List.map_cons, List.map_map]
  refine List.cons_eq_cons.mpr ⟨show c + 7 * 0 = c from by omega, ?_⟩
  refine List.map_congr_left ?_
  intro a _
  simp only [Function.comp_apply]
  omega

theorem emitLoop_eq (e : Nat) :
    ∀ fuel c, e + 1 - c ≤ fuel →
      emitLoop e fuel c =
        if c ≤ e then (List.range ((e - c) / 7 + 1)).map (fun k => c + 7 * k) else [] := by
  intro fuel
  induction fuel with
  | zero =>
    intro c h
    have hnc : ¬ c ≤ e := by omega
    simp [emitLoop, hnc]
  | succ fuel ih =>
    intro c h
    simp only [emitLoop]
    by_cases hce : c ≤ e
    · rw [if_pos hce, if_pos hce, ih (c + 7) (by omega)]
      by_cases h7 : c + 7 ≤ e
      · rw [if_pos h7]
        have hdiv : (e - c) / 7 + 1 = ((e - (c + 7)) / 7 + 1) + 1 := by omega
        rw [hdiv, rangeMap_cons c ((e - (c + 7)) / 7 + 1)]
      · rw [if_neg h7]
        have hdiv : (e - c) / 7 + 1 = 1 := by omega
        have hr1 : List.range 1 = [0] := by decide
        rw [hdiv, hr1]
        simp
    · rw [if_neg hce, if_neg hce]

theorem generateSatDates_eq_spec (s e : Nat) :
    generateSatDates s e = specSatDates s e := by
  unfold generateSatDates specSatDates
  by_cases h : firstSat s ≤ e
  · rw [advanceToSat_eq s e h, if_pos h,
      emitLoop_eq e (e + 1 - firstSat s) (firstSat s) (Nat.le_refl _), if_pos h]
  · have hgt : e < advanceToSat e s := advanceToSat_gt s e (by omega)
    have h0 : e + 1 - advanceToSat e s = 0 := by omega
    rw [h0, if_neg h]
    rfl

theorem newDateRows_map_date (sid : Nat) :
    ∀ n ds, (newDateRows sid n ds).map (fun r => r.date) = ds.map fmtRata := by
  intro n ds
  induction ds generalizing n with
  | nil => rfl
  | cons c rest ih => simp [newDateRows, ih]

theorem newDateRows_sid (sid : Nat) :
    ∀ n ds, ∀ r ∈ newDateRows sid n ds, r.service_id = sid := by
  intro n ds
  induction ds generalizing n with
  | nil => intro r hr; cases hr
  | cons c rest ih =>
    intro r hr
    rcases List.mem_cons.mp hr with rfl | hr2
    · rfl
    · exact ih (n + 1) r hr2

theorem db_dates_update_congr (db : DB) {X X2 : List ServiceDateRow} {Y Y2 : Nat}
    (hX : X = X2) (hY : Y = Y2) :
    ({ db with service_dates := X, nextServiceDateId := Y } : DB) =
      { db with service_dates := X2, nextServiceDateId := Y2 } := by
  rw [hX, hY]

theorem insertDatesLoop_eq (sid e : Nat) :
    ∀ fuel c (db : DB),
      insertDatesLoop sid e fuel c db =
        { db with
          service_dates :=
            db.service_dates ++ newDateRows sid db.nextServiceDateId (emitLoop e fuel c),
          nextServiceDateId := db.nextServiceDateId + (emitLoop e fuel c).length } := by
  intro fuel
  induction fuel with
  | zero => intro c db; simp [insertDatesLoop, emitLoop, newDateRows]
  | succ fuel ih =>
    intro c db
    simp only [insertDatesLoop, emitLoop]
    by_cases hce : c ≤ e
    · rw [if_pos hce, if_pos hce, ih]
      refine db_dates_update_congr db ?_ ?_
      · simp [newDateRows]
      · simp only [newDateRows, List.length_cons]
        omega
    · rw [if_neg hce, if_neg hce]
      simp [newDateRows]

theorem find_append_of_none {α : Type} {p : α → Bool} {l : List α} {x : α}
    (h : ∀ a ∈ l, p a = false) (hx : p x = true) :
    (l ++ [x]).find? p = some x := by
  induction l with
  | nil => simp [hx]
  | cons a l ih =>
    have ha := h a (List.mem_cons_self a l)
    simp only [List.cons_append, List.find?, ha]
    exact ih (fun b hb => h b (List.mem_cons_of_mem a hb))

theorem find_of_nodup_mem {l : List VolunteerRow} {v : VolunteerRow}
    (hnd : (l.map (fun r => r.email)).Nodup) (hv : v ∈ l) :
    l.find? (fun r => r.email = v.email) = some v := by
  induction l with
  | nil => cases hv
  | cons a l ih =>
    rcases List.mem_cons.mp hv with rfl | hv2
    · simp [List.find?]
    · have hado : a.email ∉ l.map (fun r => r.email) := (List.nodup_cons.mp hnd).1
      have hne : ¬ a.email = v.email := by
        intro he
        exact hado (he ▸ List.mem_map_of_mem (fun r => r.email) hv2)
      simp only [List.find?, decide_eq_false hne]
      exact ih (List.nodup_cons.mp hnd).2 hv2

theorem newAssignRows_map_vid (sub : Nat) (d now : String) :
    ∀ n vs, (newAssignRows sub d now n vs).map (fun r => r.volunteer_id) = vs := by
  intro n vs
  induction vs generalizing n with
  | nil => rfl
  | cons v rest ih => simp [newAssignRows, ih]

theorem newAssignRows_fields (sub : Nat) (d now : String) :
    ∀ n vs, ∀ r ∈ newAssignRows sub d now n vs,
      r.subservice_id = sub ∧ r.date = d ∧ r.completed = false ∧ n ≤ r.id := by
  intro n vs
  induction vs generalizing n with
  | nil => intro r hr; cases hr
  | cons v rest ih =>
    intro r hr
    rcases List.mem_cons.mp hr with rfl | hr2
    · exact ⟨rfl, rfl, rfl, Nat.le_refl _⟩
    · have h := ih (n + 1) r hr2
      exact ⟨h.1, h.2.1, h.2.2.1, Nat.le_of_succ_le h.2.2.2⟩

theorem assignInsertLoop_eq (sub : Nat) (d now : String) :
    ∀ vs (db : DB) ins,
      assignInsertLoop sub d now vs db ins =
        ({ db with
           assignments := db.assignments ++ newAssignRows sub d now db.nextAssignId vs,
           nextAssignId := db.nextAssignId + vs.length }, ins + vs.length) := by
  intro vs
  induction vs with
  | nil => intro db ins; simp [assignInsertLoop, newAssignRows]
  | cons v rest ih =>
    intro db ins
    simp only [assignInsertLoop]
    rw [ih]
    simp only [newAssignRows, Prod.mk.injEq, DB.mk.injEq, List.append_assoc,
      List.singleton_append, List.length_cons]
    refine ⟨⟨trivial, trivial, trivial, trivial, trivial, trivial, trivial, trivial,
      trivial, ?_⟩, ?_⟩ <;> omega

/-! ### C4: Saturday date generation -/

/-- C4: when both range endpoints parse, the `service_dates` rows generated
for the new service are exactly the spec's description: the first Saturday
on or after the start date when it is at or before the end date, plus every
7th day after it up to the end date inclusive (empty when no such Saturday
exists). -/
theorem create_service_generates_saturdays (db : DB) (now name : String)
    (cap : Nat) (sd ed : String) (s e : Nat)
    (hs : parseIsoDate sd = some s) (he : parseIsoDate ed = some e)
    (hfresh : ∀ r ∈ db.service_dates, r.service_id ≠ db.nextServiceId) :
    (create_service db now name cap (some sd) (some ed)).2 = db.nextServiceId ∧
    ((create_service db now name cap (some sd) (some ed)).1.service_dates.filter
        (fun r => r.service_id = db.nextServiceId)).map (fun r => r.date) =
      (specSatDates s e).map fmtRata := by
  constructor
  · simp [create_service, hs, he]
  · have hgen : emitLoop e (e + 1 - advanceToSat e s) (advanceToSat e s) =
        specSatDates s e := generateSatDates_eq_spec s e
    simp only [create_service, hs, he]
    rw [insertDatesLoop_eq]
    simp only [List.filter_append]
    have hold : db.service_dates.filter (fun r => r.service_id = db.nextServiceId) = [] := by
      rw [List.filter_eq_nil_iff]
      intro r hr
      simpa using hfresh r hr
    have hnewf : (newDateRows db.nextServiceId db.nextServiceDateId
          (emitLoop e (e + 1 - advanceToSat e s) (advanceToSat e s))).filter
        (fun r => r.service_id = db.nextServiceId) =
        newDateRows db.nextServiceId db.nextServiceDateId
          (emitLoop e (e + 1 - advanceToSat e s) (advanceToSat e s)) := by
      rw [List.filter_eq_self]
      intro r hr
      simpa using newDateRows_sid db.nextServiceId _ _ r hr
    rw [hold, hnewf, List.nil_append, newDateRows_map_date, hgen]

/-- Witness for C4: property P5's concrete range on the empty store. -/
theorem create_service_generates_saturdays_witness :
    (create_service emptyDB "t" "X" 10 (some "2024-06-01") (some "2024-06-29")).2 = 1 ∧
    ((create_service emptyDB "t" "X" 10
          (some "2024-06-01") (some "2024-06-29")).1.service_dates.filter
        (fun r => r.service_id = 1)).map (fun r => r.date) =
      ["2024-06-01", "2024-06-08", "2024-06-15", "2024-06-22", "2024-06-29"] := by
  have h := create_service_generates_saturdays emptyDB "t" "X" 10
    "2024-06-01" "2024-06-29" 739343 739371 (by decide) (by decide)
    (by intro r hr; cases hr)
  exact ⟨h.1, h.2.trans (by decide)⟩

/-! ### C2: duplicate email registration -/

/-- C2: when some volunteer in the store already has email `e`, `register`
(i.e. `add_volunteer`) fails with the `DuplicateEmail` signal and the store
is unchanged. -/
theorem add_volunteer_duplicate_email (db : DB) (now name email : String)
    (phone : Option String) (m : Option DateMap) (cw : Bool)
    (hdup : ∃ v ∈ db.volunteers, v.email = email) :
    (add_volunteer db now name email phone m cw).2 = .error .duplicateEmail ∧
    (add_volunteer db now name email phone m cw).1 = db := by
  obtain ⟨v, hv, he⟩ := hdup
  have hany : db.volunteers.any (fun v => v.email = email) = true := by
    simp only [List.any_eq_true, decide_eq_true_eq]
    exact ⟨v, hv, he⟩
  simp [add_volunteer, hany]

/-- Witness for C2 on a concrete store. -/
theorem add_volunteer_duplicate_email_witness :
    (add_volunteer dbTwo "t9" "Bob" "ada@x.org" none none false).2 =
        .error .duplicateEmail ∧
    (add_volunteer dbTwo "t9" "Bob" "ada@x.org" none none false).1 = dbTwo :=
  add_volunteer_duplicate_email dbTwo "t9" "Bob" "ada@x.org" none none false
    (by decide)

/-! ### C9: bad date range swallowed by create_service -/

/-- C8: `delete_volunteer` removes every assignment row of the volunteer and
then the volunteer row, returning `false` exactly when the volunteer did not
exist; `delete_service` removes the service's dates, its subservices'
assignments, its subservices and the service row, leaving no descendant row,
and returns `false` exactly when the service did not exist. -/
theorem delete_cascades (db : DB) (vid sid : Nat) :
    (delete_volunteer db vid).1.assignments =
      db.assignments.filter (fun a => ¬ a.volunteer_id = vid) ∧
    (delete_volunteer db vid).1.volunteers =
      db.volunteers.filter (fun v => ¬ v.id = vid) ∧
    ((delete_volunteer db vid).2 = false ↔ ∀ v ∈ db.volunteers, v.id ≠ vid) ∧
    (∀ a ∈ (delete_volunteer db vid).1.assignments, a.volunteer_id ≠ vid) ∧
    (∀ r ∈ (delete_service db sid).1.service_dates, r.service_id ≠ sid) ∧
    (∀ s ∈ (delete_service db sid).1.subservices, s.service_id ≠ sid) ∧
    (∀ a ∈ (delete_service db sid).1.assignments, ∀ sub ∈ db.subservices,
       sub.service_id = sid → a.subservice_id ≠ sub.id) ∧
    (∀ s ∈ (delete_service db sid).1.services, s.id ≠ sid) ∧
    ((delete_service db sid).2 = false ↔ ∀ s ∈ db.services, s.id ≠ sid) := by
  refine ⟨rfl, rfl, ?_, ?_, ?_, ?_, ?_, ?_, ?_⟩
  · simp [delete_volunteer, List.countP_eq_zero]
  · intro a ha
    have := List.mem_filter.mp ha
    simpa using this.2
  · intro r hr
    have := List.mem_filter.mp hr
    simpa using this.2
  · intro s hs
    have := List.mem_filter.mp hs
    simpa using this.2
  · intro a ha sub hsub hsid
    have h2 := (List.mem_filter.mp ha).2
    simp only [decide_eq_true_eq] at h2
    intro he
    apply h2
    refine List.mem_map.mpr ⟨sub, List.mem_filter.mpr ⟨hsub, ?_⟩, he.symm⟩
    simp [hsid]
  · intro s hs
    have := List.mem_filter.mp hs
    simpa using this.2
  · simp [delete_service, List.countP_eq_zero]

/-- Witness for C8 on a concrete store with descendants. -/
theorem delete_cascades_witness :
    (delete_volunteer
        ⟨[volAda], [], [], [⟨6, 5, "Sub", 0, "t"⟩],
         [⟨1, 6, 1, "2024-06-01", false, "t"⟩, ⟨2, 6, 9, "2024-06-01", false, "t"⟩],
         3, 6, 1, 7, 3⟩ 1).1.assignments =
      [⟨2, 6, 9, "2024-06-01", false, "t"⟩] ∧
    (delete_service
        ⟨[volAda], [⟨5, "S", 10, none, none, "t"⟩], [⟨1, 5, "2024-06-01"⟩],
         [⟨6, 5, "Sub", 0, "t"⟩],
         [⟨1, 6, 1, "2024-06-01", false, "t"⟩, ⟨2, 7, 9, "2024-06-01", false, "t"⟩],
         3, 6, 2, 7, 3⟩ 5).1.assignments =
      [⟨2, 7, 9, "2024-06-01", false, "t"⟩] := by
  have h1 := (delete_cascades
      ⟨[volAda], [], [], [⟨6, 5, "Sub", 0, "t"⟩],
       [⟨1, 6, 1, "2024-06-01", false, "t"⟩, ⟨2, 6, 9, "2024-06-01", false, "t"⟩],
       3, 6, 1, 7, 3⟩ 1 5).1
  have h2 := (delete_cascades
      ⟨[volAda], [⟨5, "S", 10, none, none, "t"⟩], [⟨1, 5, "2024-06-01"⟩],
       [⟨6, 5, "Sub", 0, "t"⟩],
       [⟨1, 6, 1, "2024-06-01", false, "t"⟩, ⟨2, 7, 9, "2024-06-01", false, "t"⟩],
       3, 6, 2, 7, 3⟩ 9 5).1
  exact ⟨by rw [h1]; decide, by decide⟩

/-! ### C10: the legacy scalar column is never written -/

/-- C10: `add_volunteer` stores the legacy scalar as NULL on the new row;
`assign_service` and `update_volunteer` leave every row's scalar unchanged;
and as soon as a row's stored mapping is non-empty, reads ignore the scalar
entirely. -/
theorem legacy_scalar_never_written (db : DB) (now name email : String)
    (phone : Option String) (m : Option DateMap) (cw : Bool)
    (vid sid : Nat) (dl : Option (List String)) (r : VolunteerRow) :
    (∀ v ∈ (add_volunteer db now name email phone m cw).1.volunteers,
       v ∈ db.volunteers ∨ v.assigned_date = none) ∧
    (assign_service db email sid dl cw).1.volunteers.map (fun v => v.assigned_date) =
      db.volunteers.map (fun v => v.assigned_date) ∧
    (update_volunteer db vid name email phone m cw).1.volunteers.map
        (fun v => v.assigned_date) =
      db.volunteers.map (fun v => v.assigned_date) ∧
    (∀ p ps, decodePayload r.assigned_dates = some (p :: ps) →
       decodeAssigned r.assigned_dates r.assigned_date = some (toReadMap (p :: ps))) := by
  refine ⟨?_, ?_, ?_, ?_⟩
  · intro v hv
    unfold add_volunteer at hv
    by_cases h : db.volunteers.any (fun v => v.email = email) = true
    · simp only [h, if_pos] at hv
      exact Or.inl hv
    · rw [if_neg h] at hv
      simp only [List.mem_append, List.mem_singleton] at hv
      rcases hv with hv | hv
      · exact Or.inl hv
      · subst hv; exact Or.inr rfl
  · unfold assign_service
    rw [List.map_map]
    refine List.map_congr_left ?_
    intro a _
    by_cases h : a.email = email <;> simp [h]
  · unfold update_volunteer
    rw [List.map_map]
    refine List.map_congr_left ?_
    intro a _
    by_cases h : a.id = vid <;> simp [h]
  · intro p ps hdec
    unfold decodeAssigned
    rw [hdec]
    simp [truthyMap]

/-- Witness for C10 on concrete stores. -/
theorem legacy_scalar_never_written_witness :
    ((assign_service dbTwo "leg@x.org" 1 (some ["2024-06-08"]) true).1.volunteers.map
        (fun v => v.assigned_date) =
      dbTwo.volunteers.map (fun v => v.assigned_date)) ∧
    decodeAssigned volAda.assigned_dates volAda.assigned_date =
      some (toReadMap [("1", ["2024-06-01", "2024-06-08"])]) := by
  have h := legacy_scalar_never_written dbTwo "t" "n" "leg@x.org" none none true 1 1
      (some ["2024-06-08"]) volAda
  exact ⟨h.2.1, h.2.2.2 ("1", ["2024-06-01", "2024-06-08"]) [] (by decide)⟩

theorem find_map_replace {κ α : Type} [DecidableEq κ] (d : List (κ × α)) (k : κ) (v : α) :
    List.find? (fun p => p.1 = k) (d.map (fun p => if p.1 = k then (k, v) else p)) =
      if (List.find? (fun p => p.1 = k) d).isSome then some (k, v) else none := by
  induction d with
  | nil => simp
  | cons p rest ih =>
    by_cases hp : p.1 = k
    · simp [List.find?, hp]
    · simp only [List.map, List.find?, if_neg hp, decide_eq_false hp]
      exact ih

theorem find_map_replace_ne {κ α : Type} [DecidableEq κ] (d : List (κ × α)) (k k2 : κ)
    (v : α) (hne : k2 ≠ k) :
    List.find? (fun p => p.1 = k2) (d.map (fun p => if p.1 = k then (k, v) else p)) =
      List.find? (fun p => p.1 = k2) d := by
  induction d with
  | nil => simp
  | cons p rest ih =>
    by_cases hp : p.1 = k
    · have h2 : ¬ (k = k2) := fun h => hne h.symm
      have h3 : ¬ (p.1 = k2) := by rw [hp]; exact h2
      rw [List.map_cons, if_pos hp,
        List.find?_cons_of_neg _ (by simpa using h2),
        List.find?_cons_of_neg _ (by simpa using h3)]
      exact ih
    · rw [List.map_cons, if_neg hp]
      by_cases hq : p.1 = k2
      · rw [List.find?_cons_of_pos _ (by simpa using hq),
          List.find?_cons_of_pos _ (by simpa using hq)]
      · rw [List.find?_cons_of_neg _ (by simpa using hq),
          List.find?_cons_of_neg _ (by simpa using hq)]
        exact ih

theorem dFind_dictPut {κ α : Type} [DecidableEq κ] (d : List (κ × α)) (k : κ) (v : α) :
    dFind (dictPut d k v) k = some v := by
  unfold dictPut dFind
  by_cases h : (List.find? (fun p => p.1 = k) d).isSome
  · rw [if_pos h, find_map_replace, if_pos h]
    rfl
  · rw [if_neg h, List.find?_append, Option.not_isSome_iff_eq_none.mp h]
    simp

theorem dFind_dictPut_ne {κ α : Type} [DecidableEq κ] (d : List (κ × α)) (k k2 : κ)
    (v : α) (hne : k2 ≠ k) :
    dFind (dictPut d k v) k2 = dFind d k2 := by
  unfold dictPut dFind
  by_cases h : (List.find? (fun p => p.1 = k) d).isSome
  · rw [if_pos h, find_map_replace_ne d k k2 v hne]
  · rw [if_neg h, List.find?_append]
    have hkk : ¬ (k = k2) := fun hx => hne hx.symm
    have hnone : List.find? (fun p => p.1 = k2) [(k, v)] = none := by
      rw [List.find?_cons_of_neg _ (by simpa using hkk)]
      rfl
    rw [hnone]
    simp

theorem dFind_dictPop {κ α : Type} [DecidableEq κ] (d : List (κ × α)) (k : κ) :
    dFind (dictPop d k) k = none := by
  unfold dictPop dFind
  induction d with
  | nil => simp
  | cons p rest ih =>
    rw [List.filter_cons]
    by_cases hp : p.1 = k
    · rw [if_neg (by simpa using hp)]
      exact ih
    · rw [if_pos (by simpa using hp), List.find?_cons_of_neg _ (by simpa using hp)]
      exact ih

theorem dFind_dictPop_ne {κ α : Type} [DecidableEq κ] (d : List (κ × α)) (k k2 : κ)
    (hne : k2 ≠ k) :
    dFind (dictPop d k) k2 = dFind d k2 := by
  unfold dictPop dFind
  induction d with
  | nil => simp
  | cons p rest ih =>
    rw [List.filter_cons]
    by_cases hp : p.1 = k
    · have h3 : ¬ (p.1 = k2) := by rw [hp]; exact fun h => hne h.symm
      rw [if_neg (by simpa using hp), List.find?_cons_of_neg _ (by simpa using h3)]
      exact ih
    · rw [if_pos (by simpa using hp)]
      by_cases hq : p.1 = k2
      · rw [List.find?_cons_of_pos _ (by simpa using hq),
          List.find?_cons_of_pos _ (by simpa using hq)]
      · rw [List.find?_cons_of_neg _ (by simpa using hq),
          List.find?_cons_of_neg _ (by simpa using hq)]
        exact ih

theorem decode_encodeMap (m : DateMap) :
    (decodePayload (encodeMap m)).getD [] = m := by
  cases m with
  | nil => rfl
  | cons p ps => rfl

/-! ### C1: assign_subservice replace semantics -/

/-- C1: `assign_subservice s d vs` deletes every assignment row of the pair
`(s, d)`, appends one fresh row per element of `vs` in input order (with
`completed = false` and fresh ids, duplicates included), returns `|vs|`, and
leaves the assignment rows of every other `(subservice, date)` pair
unchanged. -/
theorem assign_subservice_replace (db : DB) (now : String) (s : Nat)
    (d : String) (vs : List Nat) :
    (assign_subservice db now s d vs).2 = vs.length ∧
    (assign_subservice db now s d vs).1.assignments =
      db.assignments.filter (fun a => ¬ (a.subservice_id = s ∧ a.date = d)) ++
        newAssignRows s d now db.nextAssignId vs ∧
    (newAssignRows s d now db.nextAssignId vs).map (fun r => r.volunteer_id) = vs ∧
    (∀ r ∈ newAssignRows s d now db.nextAssignId vs,
       r.subservice_id = s ∧ r.date = d ∧ r.completed = false ∧ db.nextAssignId ≤ r.id) ∧
    (∀ s2 d2, ¬ (s2 = s ∧ d2 = d) →
       (assign_subservice db now s d vs).1.assignments.filter
           (fun a => a.subservice_id = s2 ∧ a.date = d2) =
         db.assignments.filter (fun a => a.subservice_id = s2 ∧ a.date = d2)) := by
  have hloop := assignInsertLoop_eq s d now vs
    { db with assignments := db.assignments.filter (fun a =>
        ¬ (a.subservice_id = s ∧ a.date = d)) } 0
  have hres : assign_subservice db now s d vs =
      ({ db with
         assignments := db.assignments.filter (fun a =>
             ¬ (a.subservice_id = s ∧ a.date = d)) ++
           newAssignRows s d now db.nextAssignId vs,
         nextAssignId := db.nextAssignId + vs.length }, 0 + vs.length) := by
    unfold assign_subservice
    exact hloop
  have hassign : (assign_subservice db now s d vs).1.assignments =
      db.assignments.filter (fun a => ¬ (a.subservice_id = s ∧ a.date = d)) ++
        newAssignRows s d now db.nextAssignId vs := by
    rw [hres]
  refine ⟨by rw [hres]; omega, hassign, newAssignRows_map_vid s d now _ _,
    newAssignRows_fields s d now _ _, ?_⟩
  intro s2 d2 hne
  rw [hassign, List.filter_append]
  have hnew : (newAssignRows s d now db.nextAssignId vs).filter
      (fun a => a.subservice_id = s2 ∧ a.date = d2) = [] := by
    rw [List.filter_eq_nil_iff]
    intro r hr
    have hf := newAssignRows_fields s d now _ _ r hr
    simp only [decide_eq_true_eq] at *
    rw [hf.1, hf.2.1]
    intro hc
    exact hne ⟨hc.1.symm, hc.2.symm⟩
  rw [hnew, List.append_nil, List.filter_filter]
  refine List.filter_congr ?_
  intro a _
  by_cases hp : a.subservice_id = s2 ∧ a.date = d2
  · have hq : ¬ (a.subservice_id = s ∧ a.date = d) := by
      intro hc
      exact hne ⟨hp.1 ▸ hc.1, hp.2 ▸ hc.2⟩
    simp only [hp, hq]
    simp [not_and_or.mp hne]
  · simp [hp]

/-- Witness for C1: replacing `[1, 2]` by `[3, 3]` on a concrete store. -/
theorem assign_subservice_replace_witness :
    (assign_subservice
        ⟨[], [], [], [],
         [⟨1, 5, 1, "2024-06-01", false, "t"⟩, ⟨2, 5, 2, "2024-06-01", false, "t"⟩,
          ⟨3, 5, 2, "2024-06-08", true, "t"⟩],
         1, 1, 1, 1, 4⟩ "t2" 5 "2024-06-01" [3, 3]).2 = 2 ∧
    (assign_subservice
        ⟨[], [], [], [],
         [⟨1, 5, 1, "2024-06-01", false, "t"⟩, ⟨2, 5, 2, "2024-06-01", false, "t"⟩,
          ⟨3, 5, 2, "2024-06-08", true, "t"⟩],
         1, 1, 1, 1, 4⟩ "t2" 5 "2024-06-01" [3, 3]).1.assignments =
      [⟨3, 5, 2, "2024-06-08", true, "t"⟩,
       ⟨4, 5, 3, "2024-06-01", false, "t2"⟩, ⟨5, 5, 3, "2024-06-01", false, "t2"⟩] := by
  have h := assign_subservice_replace
      ⟨[], [], [], [],
       [⟨1, 5, 1, "2024-06-01", false, "t"⟩, ⟨2, 5, 2, "2024-06-01", false, "t"⟩,
        ⟨3, 5, 2, "2024-06-08", true, "t"⟩],
       1, 1, 1, 1, 4⟩ "t2" 5 "2024-06-01" [3, 3]
  refine ⟨h.1, ?_⟩
  rw [h.2.1]
  decide

/-! ### C5: eligibility report -/

theorem dFind_setdefault {α : Type} (d : List (Nat × List α)) (k k2 : Nat) :
    (dFind (if (dFind d k).isSome then d else d ++ [(k, ([] : List α))]) k2).getD [] =
      (dFind d k2).getD [] := by
  by_cases h : (dFind d k).isSome
  · rw [if_pos h]
  · rw [if_neg h]
    unfold dFind at *
    rw [List.find?_append]
    by_cases hk : k2 = k
    · subst hk
      rw [Option.not_isSome_iff_eq_none] at h
      have h2 : List.find? (fun p => p.1 = k2) d = none := by
        cases hf : List.find? (fun p => p.1 = k2) d
        · rfl
        · rw [hf] at h; simp at h
      rw [h2]
      simp [List.find?]
    · have hnone : List.find? (fun p => p.1 = k2) [(k, ([] : List α))] = none := by
        rw [List.find?_cons_of_neg _ (by simpa using fun h2 => hk h2.symm)]
        rfl
      rw [hnone]
      simp

theorem dFind_getD_dictPut {κ α : Type} [DecidableEq κ] (d : List (κ × α))
    (k k2 : κ) (v x : α) :
    (dFind (dictPut d k v) k2).getD x = if k2 = k then v else (dFind d k2).getD x := by
  by_cases h : k2 = k
  · subst h
    rw [dFind_dictPut, if_pos rfl]
    rfl
  · rw [dFind_dictPut_ne _ _ _ _ h, if_neg h]

theorem eligStep_sub (acc : EligAcc) (a : AssignmentRow) (vid : Nat) :
    (dFind (eligStep acc a).vol_subservice_set vid).getD [] =
      if a.volunteer_id = vid then
        setAdd ((dFind acc.vol_subservice_set vid).getD []) a.subservice_id
      else (dFind acc.vol_subservice_set vid).getD [] := by
  simp only [eligStep]
  rw [dFind_getD_dictPut]
  by_cases h : a.volunteer_id = vid
  · rw [if_pos (show vid = a.volunteer_id from h.symm), if_pos h, h]
  · rw [if_neg (show ¬ vid = a.volunteer_id from fun hx => h hx.symm), if_neg h]

theorem eligStep_dates (acc : EligAcc) (a : AssignmentRow) (vid : Nat) :
    (dFind (eligStep acc a).vol_service_dates vid).getD [] =
      if a.volunteer_id = vid ∧ a.date ≠ "" then
        setAdd ((dFind acc.vol_service_dates vid).getD []) a.date
      else (dFind acc.vol_service_dates vid).getD [] := by
  simp only [eligStep]
  by_cases hd : a.date ≠ ""
  · rw [if_pos hd, dFind_getD_dictPut]
    by_cases h : a.volunteer_id = vid
    · rw [if_pos (show vid = a.volunteer_id from h.symm),
        if_pos (show a.volunteer_id = vid ∧ a.date ≠ "" from ⟨h, hd⟩),
        dFind_setdefault, h]
    · rw [if_neg (show ¬ vid = a.volunteer_id from fun hx => h hx.symm),
        if_neg (show ¬ (a.volunteer_id = vid ∧ a.date ≠ "") from fun hx => h hx.1),
        dFind_setdefault]
  · rw [if_neg hd,
      if_neg (show ¬ (a.volunteer_id = vid ∧ a.date ≠ "") from fun hx => hd hx.2),
      dFind_setdefault]

theorem eligStep_comp (acc : EligAcc) (a : AssignmentRow) (vid : Nat) :
    (dFind (eligStep acc a).vol_completed_count vid).getD 0 =
      if a.volunteer_id = vid ∧ a.completed = true then
        (dFind acc.vol_completed_count vid).getD 0 + 1
      else (dFind acc.vol_completed_count vid).getD 0 := by
  simp only [eligStep]
  by_cases hc : a.completed
  · rw [if_pos hc, dFind_getD_dictPut]
    by_cases h : a.volunteer_id = vid
    · rw [if_pos (show vid = a.volunteer_id from h.symm),
        if_pos (show a.volunteer_id = vid ∧ a.completed = true from ⟨h, hc⟩), h]
    · rw [if_neg (show ¬ vid = a.volunteer_id from fun hx => h hx.symm),
        if_neg (show ¬ (a.volunteer_id = vid ∧ a.completed = true) from fun hx => h hx.1)]
  · rw [if_neg hc,
      if_neg (show ¬ (a.volunteer_id = vid ∧ a.completed = true) from
        fun hx => absurd hx.2 hc)]

theorem eligFold_sub :
    ∀ (l : List AssignmentRow) (acc : EligAcc) (vid : Nat),
      (dFind (l.foldl eligStep acc).vol_subservice_set vid).getD [] =
        ((l.filter (fun a => a.volunteer_id = vid)).map
            (fun a => a.subservice_id)).foldl setAdd
          ((dFind acc.vol_subservice_set vid).getD []) := by
  intro l
  induction l with
  | nil => intro acc vid; rfl
  | cons a rest ih =>
    intro acc vid
    rw [List.foldl_cons, ih, eligStep_sub]
    by_cases h : a.volunteer_id = vid
    · rw [if_pos h, List.filter_cons_of_pos (by simpa using h), List.map_cons,
        List.foldl_cons]
    · rw [if_neg h, List.filter_cons_of_neg (by simpa using h)]

theorem eligFold_dates :
    ∀ (l : List AssignmentRow) (acc : EligAcc) (vid : Nat),
      (dFind (l.foldl eligStep acc).vol_service_dates vid).getD [] =
        ((l.filter (fun a => a.volunteer_id = vid ∧ a.date ≠ "")).map
            (fun a => a.date)).foldl setAdd
          ((dFind acc.vol_service_dates vid).getD []) := by
  intro l
  induction l with
  | nil => intro acc vid; rfl
  | cons a rest ih =>
    intro acc vid
    rw [List.foldl_cons, ih, eligStep_dates]
    by_cases h : a.volunteer_id = vid ∧ a.date ≠ ""
    · rw [if_pos h, List.filter_cons_of_pos (by simpa using h), List.map_cons,
        List.foldl_cons]
    · rw [if_neg h, List.filter_cons_of_neg (by simpa using h)]

theorem eligFold_comp :
    ∀ (l : List AssignmentRow) (acc : EligAcc) (vid : Nat),
      (dFind (l.foldl eligStep acc).vol_completed_count vid).getD 0 =
        (dFind acc.vol_completed_count vid).getD 0 +
          l.countP (fun a => decide (a.volunteer_id = vid) && a.completed) := by
  intro l
  induction l with
  | nil => intro acc vid; simp
  | cons a rest ih =>
    intro acc vid
    rw [List.foldl_cons, ih, eligStep_comp, List.countP_cons]
    by_cases h : a.volunteer_id = vid ∧ a.completed = true
    · rw [if_pos h]
      have hp : (decide (a.volunteer_id = vid) && a.completed) = true := by
        rw [h.2]
        simp [h.1]
      rw [hp]
      simp only [if_pos]
      omega
    · rw [if_neg h]
      have hp : (decide (a.volunteer_id = vid) && a.completed) = false := by
        by_cases h1 : a.volunteer_id = vid
        · have h2 : a.completed = false := by
            cases hcc : a.completed
            · rfl
            · exact absurd ⟨h1, hcc⟩ h
          rw [h2]
          simp
        · simp [h1]
      rw [hp]
      simp

theorem foldl_setAdd_mem {α : Type} [DecidableEq α] :
    ∀ (xs s : List α) (x : α), x ∈ xs.foldl setAdd s ↔ x ∈ s ∨ x ∈ xs := by
  intro xs
  induction xs with
  | nil => intro s x; simp
  | cons a rest ih =>
    intro s x
    rw [List.foldl_cons, ih]
    unfold setAdd
    by_cases h : a ∈ s
    · constructor
      · rintro (hx | hx)
        · rw [if_pos h] at hx
          exact Or.inl hx
        · exact Or.inr (List.mem_cons_of_mem a hx)
      · rintro (hx | hx)
        · exact Or.inl (by rw [if_pos h]; exact hx)
        · rcases List.mem_cons.mp hx with rfl | hx2
          · exact Or.inl (by rw [if_pos h]; exact h)
          · exact Or.inr hx2
    · rw [if_neg h]
      constructor
      · rintro (hx | hx)
        · rcases List.mem_append.mp hx with hx2 | hx2
          · exact Or.inl hx2
          · exact Or.inr (List.mem_cons.mpr (Or.inl (List.mem_singleton.mp hx2)))
        · exact Or.inr (List.mem_cons_of_mem a hx)
      · rintro (hx | hx)
        · exact Or.inl (List.mem_append.mpr (Or.inl hx))
        · rcases List.mem_cons.mp hx with rfl | hx2
          · exact Or.inl (List.mem_append.mpr (Or.inr (List.mem_singleton.mpr rfl)))
          · exact Or.inr hx2

theorem foldl_setAdd_nodup {α : Type} [DecidableEq α] :
    ∀ (xs s : List α), s.Nodup → (xs.foldl setAdd s).Nodup := by
  intro xs
  induction xs with
  | nil => intro s h; exact h
  | cons a rest ih =>
    intro s h
    rw [List.foldl_cons]
    refine ih _ ?_
    unfold setAdd
    by_cases ha : a ∈ s
    · rw [if_pos ha]; exact h
    · rw [if_neg ha]
      simp [List.nodup_append, h, ha]

theorem foldl_setAdd_nil_length {α : Type} [DecidableEq α] (xs : List α) :
    (xs.foldl setAdd []).length = xs.toFinset.card := by
  have hnd : (xs.foldl setAdd []).Nodup := foldl_setAdd_nodup xs [] (by simp)
  have hfs : (xs.foldl setAdd []).toFinset = xs.toFinset := by
    ext x
    simp [List.mem_toFinset, foldl_setAdd_mem]
  rw [← List.toFinset_card_of_nodup hnd, hfs]

/-- C5 counterexample: an assignment row whose date is the empty string is
omitted from the volunteer's `service_dates` cell, although it is one of the
volunteer's assignment dates — Python truthiness skips falsy dates. -/
theorem eligibility_dates_counterexample :
    ¬ ("" ∈ eligDates [⟨1, 7, 4, "", false, "t"⟩] 4) ∧
    "" ∈ (([⟨1, 7, 4, "", false, "t"⟩] : List AssignmentRow).filter
        (fun a => a.volunteer_id = 4)).map (fun a => a.date) := by
  constructor
  · decide
  · decide

/-- C5 (amended: rows whose date is the empty string are ignored for the
date set): for every assignment list the report row of volunteer `vid` has
`distinctSubserviceCount` = number of distinct subservice ids over the
volunteer's rows regardless of the completed flag, `completedCount` = number
of the volunteer's completed rows, `serviceDatesAttended` = sorted
duplicate-free list of the volunteer's non-empty assignment dates, and the
eligibility cell filled iff the distinct count is at least 3. -/
theorem eligibility_report_spec (assigns : List AssignmentRow) (vid : Nat) :
    eligSubCount assigns vid =
      (((assigns.filter (fun a => a.volunteer_id = vid)).map
          (fun a => a.subservice_id)).toFinset).card ∧
    eligCompleted assigns vid =
      assigns.countP (fun a => decide (a.volunteer_id = vid) && a.completed) ∧
    (eligDates assigns vid).Sorted (· ≤ ·) ∧
    (eligDates assigns vid).Nodup ∧
    (∀ dt, dt ∈ eligDates assigns vid ↔
       (dt ≠ "" ∧ ∃ a ∈ assigns, a.volunteer_id = vid ∧ a.date = dt)) ∧
    (eligString assigns vid = "Eligible for Vol. Fees return" ↔
       3 ≤ eligSubCount assigns vid) := by
  have hsub : (dFind (eligFold assigns).vol_subservice_set vid).getD [] =
      ((assigns.filter (fun a => a.volunteer_id = vid)).map
          (fun a => a.subservice_id)).foldl setAdd [] := by
    unfold eligFold
    rw [eligFold_sub]
    rfl
  have hdat : (dFind (eligFold assigns).vol_service_dates vid).getD [] =
      ((assigns.filter (fun a => a.volunteer_id = vid ∧ a.date ≠ "")).map
          (fun a => a.date)).foldl setAdd [] := by
    unfold eligFold
    rw [eligFold_dates]
    rfl
  refine ⟨?_, ?_, ?_, ?_, ?_, ?_⟩
  · unfold eligSubCount
    rw [hsub, foldl_setAdd_nil_length]
  · unfold eligCompleted eligFold
    rw [eligFold_comp]
    simp [dFind]
  · exact List.sorted_insertionSort _ _
  · unfold eligDates
    refine (List.perm_insertionSort _ _).nodup_iff.mpr ?_
    rw [hdat]
    exact foldl_setAdd_nodup _ [] (by simp)
  · intro dt
    unfold eligDates
    rw [List.mem_insertionSort, hdat, foldl_setAdd_mem]
    simp only [List.mem_map, List.mem_filter, List.not_mem_nil, false_or,
      decide_eq_true_eq]
    constructor
    · rintro ⟨a, ⟨ha, hvid, hne⟩, rfl⟩
      exact ⟨hne, a, ha, hvid, rfl⟩
    · rintro ⟨hne, a, ha, hvid, rfl⟩
      exact ⟨a, ⟨ha, hvid, hne⟩, rfl⟩
  · unfold eligString
    by_cases h : 3 ≤ eligSubCount assigns vid
    · rw [if_pos h]
      simp [h]
    · rw [if_neg h]
      simp [h]

/-- Witness for C5 on a concrete assignment list: volunteer 4 has three
distinct sub-services and is eligible, volunteer 7 has one and is not, and
volunteer 4's date set contains exactly the two assigned dates. -/
theorem eligibility_report_spec_witness :
    eligSubCount assignsSample 4 = 3 ∧
    eligCompleted assignsSample 4 = 2 ∧
    "2024-06-08" ∈ eligDates assignsSample 4 ∧
    ¬ "2024-06-15" ∈ eligDates assignsSample 4 ∧
    eligString assignsSample 4 = "Eligible for Vol. Fees return" ∧
    eligSubCount assignsSample 7 = 1 ∧
    eligString assignsSample 7 = "" := by
  have h4 := eligibility_report_spec assignsSample 4
  have h7 := eligibility_report_spec assignsSample 7
  refine ⟨h4.1.trans (by decide), h4.2.1.trans (by decide),
    (h4.2.2.2.2.1 "2024-06-08").mpr (by decide),
    fun hmem => ?_,
    h4.2.2.2.2.2.mpr (by rw [h4.1]; decide), h7.1.trans (by decide), ?_⟩
  · have := (h4.2.2.2.2.1 "2024-06-15").mp hmem
    exact absurd this (by decide)
  · by_cases h : eligString assignsSample 7 = "Eligible for Vol. Fees return"
    · have h3 := h7.2.2.2.2.2.mp h
      rw [h7.1] at h3
      exact absurd h3 (by decide)
    · unfold eligString at h ⊢
      by_cases hle : 3 ≤ eligSubCount assignsSample 7
      · rw [if_pos hle] at h
        exact absurd rfl h
      · rw [if_neg hle]

/-! ### C3: legacy scalar fallback on reads -/

/-- C3 counterexample: a row whose stored mapping is absent and whose legacy
scalar is present but equal to `""` is read back with the mapping absent,
not as `{null: [""]}` — Python truthiness disables the fallback for the
empty string. -/
theorem legacy_scalar_fallback_counterexample :
    (get_volunteer_by_email
        ⟨[⟨9, "E", "e@x.org", none, false, "t", none, some "", none⟩],
         [], [], [], [], 10, 1, 1, 1, 1⟩ "e@x.org").map (fun v => v.assigned_dates) =
      some none ∧
    some (none : Option ReadMap) ≠
      some (some [((none : Option String), [""])]) := by
  constructor
  · decide
  · decide

/-- C3 (amended: the legacy scalar must be non-empty): a row whose stored
mapping is absent or empty and whose legacy scalar is a non-empty `d` is
returned by `get_volunteer_by_email` and by `list_volunteers` with decoded
mapping `{null: [d]}`. -/
theorem legacy_scalar_fallback (db : DB) (r : VolunteerRow) (d : String)
    (hmem : r ∈ db.volunteers)
    (hnd : (db.volunteers.map (fun v => v.email)).Nodup)
    (hstored : r.assigned_dates = none ∨ r.assigned_dates = some (.json []))
    (hleg : r.assigned_date = some d) (hd : d ≠ "") :
    (get_volunteer_by_email db r.email).map (fun v => v.assigned_dates) =
      some (some [(none, [d])]) ∧
    ∃ item ∈ list_volunteers db, item.id = r.id ∧ item.email = r.email ∧
      item.assigned_dates = some [(none, [d])] := by
  have hdec : decodeAssigned r.assigned_dates r.assigned_date = some [(none, [d])] := by
    have htm : truthyMap (decodePayload r.assigned_dates) = false := by
      rcases hstored with h | h <;> rw [h] <;> rfl
    have hts : truthyStr (some d) = true := by
      simpa [truthyStr] using hd
    simp [decodeAssigned, htm, hleg, hts]
  constructor
  · unfold get_volunteer_by_email
    rw [find_of_nodup_mem hnd hmem]
    simp [hdec]
  · unfold list_volunteers
    have hmem2 : r ∈ List.insertionSort
        (fun a b : VolunteerRow => b.created_at ≤ a.created_at) db.volunteers := by
      rw [List.mem_insertionSort]
      exact hmem
    refine ⟨_, List.mem_map_of_mem _ hmem2, rfl, rfl, ?_⟩
    simpa using hdec

/-- Witness for the amended C3 on a concrete store (property P3). -/
theorem legacy_scalar_fallback_witness :
    (get_volunteer_by_email dbTwo "leg@x.org").map (fun v => v.assigned_dates) =
      some (some [(none, ["2024-06-01"])]) ∧
    ∃ item ∈ list_volunteers dbTwo, item.id = volLeg.id ∧ item.email = volLeg.email ∧
      item.assigned_dates = some [(none, ["2024-06-01"])] := by
  have h := legacy_scalar_fallback dbTwo volLeg "2024-06-01"
    (by decide) (by decide) (Or.inl rfl) rfl (by decide)
  exact ⟨h.1, h.2⟩

/-! ### C6: reassign sets or clears one mapping key -/

/-- C6: for an email present in the store, `assign_service` persists the
volunteer's stored mapping with the `str(serviceId)` key set to the given
dates when the list is non-empty and removed when it is empty or null,
updates `committed_weekly`, keeps the legacy scalar, and returns `true`;
for an absent email it returns `false` without error and leaves the store
unchanged. -/
theorem reassign_sets_or_clears (db : DB) (email : String) (sid : Nat)
    (dl : Option (List String)) (cw : Bool)
    (hnd : (db.volunteers.map (fun v => v.email)).Nodup) :
    ((∃ v ∈ db.volunteers, v.email = email) →
       (assign_service db email sid dl cw).2 = true ∧
       (∀ v ∈ db.volunteers, v.email = email →
          ∃ v2 ∈ (assign_service db email sid dl cw).1.volunteers,
            v2.id = v.id ∧ v2.email = email ∧ v2.committed_weekly = cw ∧
            v2.assigned_date = v.assigned_date ∧
            dFind ((decodePayload v2.assigned_dates).getD []) (toString sid) =
              (match dl with
               | some (d :: ds) => some (d :: ds)
               | _ => none) ∧
            (∀ k, k ≠ toString sid →
               dFind ((decodePayload v2.assigned_dates).getD []) k =
                 dFind ((decodePayload v.assigned_dates).getD []) k))) ∧
    ((∀ v ∈ db.volunteers, v.email ≠ email) →
       (assign_service db email sid dl cw).2 = false ∧
       (assign_service db email sid dl cw).1 = db) := by
  constructor
  · rintro ⟨v0, hv0, he0⟩
    have hpos : (assign_service db email sid dl cw).2 = true := by
      unfold assign_service
      have : 0 < db.volunteers.countP (fun v => v.email = email) := by
        rw [List.countP_pos_iff]
        exact ⟨v0, hv0, by simpa using he0⟩
      simpa using this
    refine ⟨hpos, ?_⟩
    intro v hv he
    have hfind : db.volunteers.find? (fun r => r.email = email) = some v := by
      have := find_of_nodup_mem hnd hv
      rwa [he] at this
    refine ⟨{ v with
        assigned_dates := encodeMap
          (match dl with
           | some (d :: ds) =>
             dictPut ((decodePayload v.assigned_dates).getD []) (toString sid) (d :: ds)
           | _ => dictPop ((decodePayload v.assigned_dates).getD []) (toString sid)),
        committed_weekly := cw }, ?_, rfl, he, rfl, rfl, ?_, ?_⟩
    · unfold assign_service
      rw [hfind]
      refine List.mem_map.mpr ⟨v, hv, ?_⟩
      rw [if_pos he]
      cases dl with
      | none => rfl
      | some l =>
        cases l with
        | nil => rfl
        | cons d ds => rfl
    · rw [decode_encodeMap]
      cases dl with
      | none => exact dFind_dictPop _ _
      | some l =>
        cases l with
        | nil => exact dFind_dictPop _ _
        | cons d ds => exact dFind_dictPut _ _ _
    · intro k hk
      rw [decode_encodeMap]
      cases dl with
      | none => exact dFind_dictPop_ne _ _ _ hk
      | some l =>
        cases l with
        | nil => exact dFind_dictPop_ne _ _ _ hk
        | cons d ds => exact dFind_dictPut_ne _ _ _ _ hk
  · intro habs
    have hcount : db.volunteers.countP (fun v => v.email = email) = 0 := by
      rw [List.countP_eq_zero]
      intro v hv
      simpa using habs v hv
    have hmapid : ∀ pay : Option Payload,
        db.volunteers.map (fun v =>
          if v.email = email then
            { v with assigned_dates := pay, committed_weekly := cw }
          else v) = db.volunteers := by
      intro pay
      have h1 : db.volunteers.map (fun v =>
          if v.email = email then
            { v with assigned_dates := pay, committed_weekly := cw }
          else v) = db.volunteers.map (fun v => v) :=
        List.map_congr_left (fun v hv => by rw [if_neg (habs v hv)])
      simpa using h1
    constructor
    · unfold assign_service
      simp [hcount]
    · unfold assign_service
      simp only [hmapid]

/-- Witness for C6: property P4 — clearing key "1" of a concrete volunteer
and the silent failure on an unknown email. -/
theorem reassign_sets_or_clears_witness :
    ((assign_service dbTwo "ada@x.org" 1 (some []) false).2 = true ∧
     (∀ v ∈ dbTwo.volunteers, v.email = "ada@x.org" →
        ∃ v2 ∈ (assign_service dbTwo "ada@x.org" 1 (some []) false).1.volunteers,
          v2.id = v.id ∧ v2.email = "ada@x.org" ∧ v2.committed_weekly = false ∧
          v2.assigned_date = v.assigned_date ∧
          dFind ((decodePayload v2.assigned_dates).getD []) (toString 1) = none ∧
          (∀ k, k ≠ toString 1 →
             dFind ((decodePayload v2.assigned_dates).getD []) k =
               dFind ((decodePayload v.assigned_dates).getD []) k))) ∧
    ((assign_service dbTwo "nobody@x.org" 1 (some []) false).2 = false ∧
     (assign_service dbTwo "nobody@x.org" 1 (some []) false).1 = dbTwo) := by
  have h1 := reassign_sets_or_clears dbTwo "ada@x.org" 1 (some []) false (by decide)
  have h2 := reassign_sets_or_clears dbTwo "nobody@x.org" 1 (some []) false (by decide)
  exact ⟨h1.1 ⟨volAda, by decide, rfl⟩, h2.2 (by decide)⟩

/-- C7: registering a fresh email with a non-empty date mapping and reading
the volunteer back by email returns exactly that mapping decoded; with an
empty or absent mapping the stored payload is NULL and the read-back mapping
is absent. -/
theorem register_mapping_roundtrip (db : DB) (now name email : String)
    (phone : Option String) (cw : Bool) (m : DateMap) (mo : Option DateMap)
    (hfresh : ∀ v ∈ db.volunteers, v.email ≠ email) (hm : m ≠ [])
    (hmo : truthyMap mo = false) :
    (add_volunteer db now name email phone (some m) cw).2 = .ok db.nextVolunteerId ∧
    get_volunteer_by_email (add_volunteer db now name email phone (some m) cw).1 email =
      some ⟨db.nextVolunteerId, name, email, phone, cw, some (toReadMap m), now⟩ ∧
    (add_volunteer db now name email phone mo cw).1.volunteers =
      db.volunteers ++
        [⟨db.nextVolunteerId, name, email, phone, cw, now, none, none, none⟩] ∧
    get_volunteer_by_email (add_volunteer db now name email phone mo cw).1 email =
      some ⟨db.nextVolunteerId, name, email, phone, cw, none, now⟩ := by
  have hany : db.volunteers.any (fun v => v.email = email) = false := by
    rw [List.any_eq_false]
    intro v hv
    simpa using hfresh v hv
  have hfind : ∀ pay : Option Payload,
      List.find? (fun v => v.email = email)
        (db.volunteers ++
          [VolunteerRow.mk db.nextVolunteerId name email phone cw now none none pay]) =
      some (VolunteerRow.mk db.nextVolunteerId name email phone cw now none none pay) := by
    intro pay
    refine find_append_of_none ?_ (by simp)
    intro a ha
    simpa using hfresh a ha
  have hmoenc : encodeOptMap mo = none := by
    cases mo with
    | none => rfl
    | some l =>
      cases l with
      | nil => rfl
      | cons p ps => simp [truthyMap] at hmo
  obtain ⟨p, ps, rfl⟩ : ∃ p ps, m = p :: ps := by
    cases m with
    | nil => exact absurd rfl hm
    | cons p ps => exact ⟨p, ps, rfl⟩
  refine ⟨?_, ?_, ?_, ?_⟩
  · simp [add_volunteer, hany]
  · simp only [add_volunteer, hany, Bool.false_eq_true, if_neg, ite_false]
    unfold get_volunteer_by_email
    rw [hfind]
    simp [decodeAssigned, encodeOptMap, decodePayload, truthyMap, truthyStr]
  · simp [add_volunteer, hany, hmoenc]
  · simp only [add_volunteer, hany, Bool.false_eq_true, if_neg, ite_false]
    unfold get_volunteer_by_email
    rw [hmoenc, hfind]
    simp [decodeAssigned, decodePayload, truthyMap, truthyStr]

/-- Witness for C7: the mapping of property P2 round-trips on the empty
store, and an absent mapping reads back as absent. -/
theorem register_mapping_roundtrip_witness :
    (add_volunteer emptyDB "t" "Ada" "ada@x.org" none
        (some [("1", ["2024-06-01", "2024-06-08"])]) false).2 = .ok 1 ∧
    get_volunteer_by_email
        (add_volunteer emptyDB "t" "Ada" "ada@x.org" none
          (some [("1", ["2024-06-01", "2024-06-08"])]) false).1 "ada@x.org" =
      some ⟨1, "Ada", "ada@x.org", none, false,
        some [(some "1", ["2024-06-01", "2024-06-08"])], "t"⟩ ∧
    get_volunteer_by_email
        (add_volunteer emptyDB "t" "Ada" "ada@x.org" none none false).1 "ada@x.org" =
      some ⟨1, "Ada", "ada@x.org", none, false, none, "t"⟩ := by
  have h := register_mapping_roundtrip emptyDB "t" "Ada" "ada@x.org" none false
    [("1", ["2024-06-01", "2024-06-08"])] none (by intro v hv; cases hv) (by decide) rfl
  exact ⟨h.1, h.2.1, h.2.2.2⟩
